import Mathlib

/-!
Verification of the command-line argument parser of `src/parser/main.py`.

The source program builds a Python 3.11 `argparse.ArgumentParser` with
description "Instrument C code for tracing.", one required positional
argument `input_file`, one optional flag `-o`/`--output` taking one value,
and the automatically added `-h`/`--help` flag, and then calls
`parse_args()`.  The behaviour of `main` is therefore exactly the
behaviour of CPython 3.11 `argparse` specialized to this fixed option
schema.  The definitions below are a shallow embedding of that algorithm
(`_parse_optional`, `_get_option_tuples`, `_parse_known_args` with its
`consume_optional` / `consume_positionals` loops, `_get_values`,
`parse_args`, `ArgumentParser.error` and `_HelpAction`), specialized to
the parser configured in `main.py`.
-/

namespace ChangeMe

/-- The two value-bearing actions registered on the parser of `main.py`:
the automatic help action and the `store` action of `-o`/`--output`. -/
inductive Act
  | help
  | output
deriving DecidableEq, Repr

/-- A Python value that can end up in the parsed namespace for this parser:
`null` models Python `None` (the default of `output`), `str` a string
value, and `strs` a list of strings (argparse stores `[]` in the corner
case where a consumed argument list becomes empty after `--` stripping
in `_get_values`). -/
inductive NVal
  | null
  | str (s : String)
  | strs (l : List String)
deriving DecidableEq, Repr

/-- The parsed result of a successful invocation: the namespace produced by
`parse_args`, holding the two destinations declared in `main.py`. -/
structure Invocation where
  input_file : NVal
  output : NVal
deriving DecidableEq, Repr

/-- Process outcome of running `main`:
`ok` means `parse_args` returned a namespace and `main` fell off the end
(process exit status 0); `helpExit` means the help action printed the help
text and called `parser.exit()` (exit status 0); `usageError` means
`parser.error` printed the usage message to stderr and exited with
status 2. -/
inductive Outcome
  | ok (inv : Invocation)
  | helpExit
  | usageError
deriving DecidableEq, Repr

/-- The option-string table of the parser (as character lists), in
insertion order: `add_help` registers `-h` and `--help` first, then
`add_argument("-o", "--output", ...)` registers `-o` and `--output`. -/
def optionStringActions : List (List Char × Act) :=
  [(['-', 'h'], Act.help), (['-', '-', 'h', 'e', 'l', 'p'], Act.help),
   (['-', 'o'], Act.output), (['-', '-', 'o', 'u', 't', 'p', 'u', 't'], Act.output)]

/-- Dictionary lookup in `parser._option_string_actions`. -/
def lookupOpt : List Char → Option Act
  | ['-', 'h'] => some Act.help
  | ['-', '-', 'h', 'e', 'l', 'p'] => some Act.help
  | ['-', 'o'] => some Act.output
  | ['-', '-', 'o', 'u', 't', 'p', 'u', 't'] => some Act.output
  | _ => none

/-- Whether a matched option string is a single-dash option
(`option_string[1] not in self.prefix_chars`); this drives the
combined-short-flags reinterpretation in `consume_optional`. -/
def shortOpt (os : List Char) : Bool :=
  match os with
  | _ :: c :: _ => c ≠ '-'
  | _ => true

/-- Python `arg_string.split('=', 1)`: split a token at its first `=`,
returning the parts on each side, or `none` when no `=` occurs. -/
def splitEq : List Char → Option (List Char × List Char)
  | [] => none
  | c :: r =>
    if c = '=' then some ([], r)
    else (splitEq r).map (fun p => (c :: p.1, p.2))

/-- The `_negative_number_matcher` regex of argparse,
`^-\d+$|^-\d*\.\d+$` (digits restricted to ASCII in this model). -/
def isNegNum (cs : List Char) : Bool :=
  match cs with
  | '-' :: rest =>
    (!rest.isEmpty && rest.all Char.isDigit) ||
      (match rest.drop (rest.takeWhile Char.isDigit).length with
       | '.' :: frac => !frac.isEmpty && frac.all Char.isDigit
       | _ => false)
  | _ => false

/-- Result of `_parse_optional` on one token: `pos` is Python `None`
(the token is a positional argument), `opt` is a matched known option
together with its shortness and explicit `=`/attached argument,
`unknown` is the `(None, arg_string, None)` tuple for an
unrecognized-looking option, and `ambig` is the ambiguous-abbreviation
case in which `_parse_optional` calls `self.error` immediately. -/
inductive TokClass
  | pos
  | opt (a : Act) (short : Bool) (explicitArg : Option String)
  | unknown
  | ambig
deriving DecidableEq, Repr

/-- The `_get_option_tuples` search: abbreviation matching of a token that
was not an exact (or exact-before-`=`) option string.  Returns the list
of (action, shortness of matched option string, explicit argument)
interpretations. -/
def getOptionTuples (cs : List Char) : List (Act × Bool × Option String) :=
  match cs with
  | c1 :: c2 :: _ =>
    if c1 = '-' && c2 = '-' then
      -- double-dash tokens are only split at '=' (allow_abbrev is True)
      let pe : List Char × Option String :=
        match splitEq cs with
        | some (a, b) => (a, some (String.mk b))
        | none => (cs, none)
      (optionStringActions.filter (fun os => pe.1.isPrefixOf os.1)).map
        (fun os => (os.2, shortOpt os.1, pe.2))
    else if c1 = '-' then
      -- single-dash tokens: either the first two characters are exactly a
      -- short option (rest becomes the attached explicit argument), or the
      -- whole token abbreviates an option string
      optionStringActions.filterMap (fun os =>
        if os.1 = [c1, c2] then some (os.2, shortOpt os.1, some (String.mk (cs.drop 2)))
        else if cs.isPrefixOf os.1 then some (os.2, shortOpt os.1, none)
        else none)
    else []
  | _ => []

/-- The `_parse_optional` classifier of argparse 3.11, specialized to the
option table of `main.py`: empty or non-dash-initial tokens are
positional, then exact option strings, then bare `-`, then the
exact-before-`=` form, then abbreviation search, then the
negative-number and embedded-space escapes, and finally the unknown
option tuple.  (The caller, pattern construction, treats the first `--`
token specially before ever classifying it.) -/
def tokClass (s : String) : TokClass :=
  match s.data with
  | [] => TokClass.pos
  | c :: cs2 =>
    if c ≠ '-' then TokClass.pos
    else
      match lookupOpt (c :: cs2) with
      | some a => TokClass.opt a (shortOpt (c :: cs2)) none
      | none =>
        match cs2 with
        | [] => TokClass.pos
        | _ :: _ =>
          match
            (match splitEq (c :: cs2) with
             | some (p, e) =>
               (lookupOpt p).map
                 (fun a => TokClass.opt a (shortOpt p) (some (String.mk e)))
             | none => none) with
          | some t => t
          | none =>
            match getOptionTuples (c :: cs2) with
            | [t] => TokClass.opt t.1 t.2.1 t.2.2
            | [] =>
              if isNegNum (c :: cs2) then TokClass.pos
              else if (c :: cs2).contains ' ' then TokClass.pos
              else TokClass.unknown
            | _ => TokClass.ambig

/-- One element of the `arg_strings_pattern` together with the data the
consumption loop needs: `A` a positional-looking token, `O` a known
option, `U` an unrecognized option (pattern char `O` with action `None`),
`dash` the first `--` token (pattern char `-`). -/
inductive PTok
  | A (tok : String)
  | O (a : Act) (short : Bool) (explicitArg : Option String)
  | U (tok : String)
  | dash
deriving DecidableEq, Repr

/-- Classification of one non-`--` token into its pattern element;
`none` models `_parse_optional` aborting the whole parse with an
ambiguous-option usage error. -/
def toPTok (s : String) : Option PTok :=
  match tokClass s with
  | TokClass.pos => some (PTok.A s)
  | TokClass.opt a sh e => some (PTok.O a sh e)
  | TokClass.unknown => some (PTok.U s)
  | TokClass.ambig => none

/-- The pattern-building loop of `_parse_known_args`: every token after the
first `--` is a positional (`A`); classification errors (ambiguous
abbreviations) abort with a usage error before any consumption happens. -/
def patternOf : List String → Option (List PTok)
  | [] => some []
  | s :: rest =>
    if s = "--" then some (PTok.dash :: rest.map PTok.A)
    else
      match toPTok s with
      | none => none
      | some t => (patternOf rest).map (fun ts => t :: ts)

/-- Python `arg_strings.remove('--')` guarded by try/except: remove the
first occurrence of `--` from a consumed argument list (`_get_values`). -/
def removeFirstDD : List String → List String
  | [] => []
  | a :: r => if a = "--" then r else a :: removeFirstDD r

/-- The value `_get_values` produces for a `nargs=None` action from the
consumed argument strings: after stripping the first `--`, a single string
yields that string, and any other length falls through to the final
branch of `_get_values`, which produces a list. -/
def storedVal (args : List String) : NVal :=
  match removeFirstDD args with
  | [v] => NVal.str v
  | l => NVal.strs l

/-- An action queued in `action_tuples` by `consume_optional`: the help
action (no arguments), or the output `store` action with its consumed
argument strings. -/
inductive QAct
  | qhelp
  | qstore (args : List String)
deriving DecidableEq, Repr

/-- Execute the queued `action_tuples` in order (`take_action`): the help
action prints help and exits (result `none`); the store action overwrites
the `output` destination. -/
def execQ (out : NVal) : List QAct → Option NVal
  | [] => some out
  | QAct.qhelp :: _ => none
  | QAct.qstore args :: q => execQ (storedVal args) q

/-- Result of the `while True` loop of `consume_optional` that resolves an
option token and its explicit argument: a hard usage error (ignored
explicit argument), a fully resolved queue of actions, or a queue plus a
pending output action that must still match one following `A` in the
pattern (`nargs=None`, whose pattern for an optional is `(A)`). -/
inductive ChainRes
  | err
  | done (q : List QAct)
  | needArg (q : List QAct)
deriving DecidableEq, Repr

/-- The explicit-argument resolution loop of `consume_optional`.  For the
output action an explicit argument is consumed directly; without one the
caller must match the following pattern.  For the help action (`nargs=0`)
an explicit argument is only legal on a single-dash option string with a
nonempty tail, in which case the tail is reinterpreted as further
single-dash options (`-xyz` handling); otherwise argparse raises
"ignored explicit argument". -/
def chainNone (a : Act) (q : List QAct) : ChainRes :=
  match a with
  | Act.output => ChainRes.needArg q
  | Act.help => ChainRes.done (q ++ [QAct.qhelp])

/-- The explicit-argument case of the loop: `new_explicit_arg` is
`explicit_arg[1:] or None`, so an emptied tail continues as `chainNone`. -/
def chainSome : Act → Bool → List Char → List QAct → ChainRes
  | Act.output, _, cs, q => ChainRes.done (q ++ [QAct.qstore [String.mk cs]])
  | Act.help, _, [], _ => ChainRes.err
  | Act.help, sh, c :: cs, q =>
    if sh then
      if c = 'h' then
        match cs with
        | [] => chainNone Act.help (q ++ [QAct.qhelp])
        | _ => chainSome Act.help sh cs (q ++ [QAct.qhelp])
      else if c = 'o' then
        match cs with
        | [] => chainNone Act.output (q ++ [QAct.qhelp])
        | _ => chainSome Act.output sh cs (q ++ [QAct.qhelp])
      else ChainRes.err
    else ChainRes.err

def chainCore (a : Act) (sh : Bool) (e : Option (List Char)) (q : List QAct) : ChainRes :=
  match e with
  | none => chainNone a q
  | some cs => chainSome a sh cs q

/-- The alternating consumption loop of `_parse_known_args` over the
pattern, specialized to one `nargs=None` positional and the two optionals.
State: `pos` is the value consumed for `input_file` (argparse marks the
action as seen), `out` the current value of `output`, `ex` the `extras`
list.  The positional matches the regex `(-*A-*)`, so it can absorb the
`-` pattern character of the first `--` on either side of its `A`; the
optional `-o`/`--output` matches `(A)` (for an optional action the `-`
parts are removed from the nargs pattern), so it requires an immediately
following `A`.  At the end, a missing required positional is reported
first (`_parse_known_args`), then nonempty extras ("unrecognized
arguments", in `parse_args`). -/
def run : List PTok → Option NVal → NVal → List String → Outcome
  | [], pos, out, ex =>
    match pos with
    | none => Outcome.usageError
    | some v => if ex.isEmpty then Outcome.ok ⟨v, out⟩ else Outcome.usageError
  | PTok.A s :: rest, pos, out, ex =>
    match pos with
    | some _ => run rest pos out (ex ++ [s])
    | none =>
      match rest with
      | PTok.dash :: r => run r (some (storedVal [s, "--"])) out ex
      | [] => run [] (some (storedVal [s])) out ex
      | t :: r => run (t :: r) (some (storedVal [s])) out ex
  | PTok.dash :: rest, pos, out, ex =>
    match pos with
    | none =>
      match rest with
      | PTok.A s :: r => run r (some (storedVal ["--", s])) out ex
      | [] => run [] pos out (ex ++ ["--"])
      | t :: r => run (t :: r) pos out (ex ++ ["--"])
    | some _ => run rest pos out (ex ++ ["--"])
  | PTok.U s :: rest, pos, out, ex => run rest pos out (ex ++ [s])
  | PTok.O a sh e :: rest, pos, out, ex =>
    match chainCore a sh (e.map String.data) [] with
    | ChainRes.err => Outcome.usageError
    | ChainRes.done q =>
      match execQ out q with
      | none => Outcome.helpExit
      | some out2 => run rest pos out2 ex
    | ChainRes.needArg q =>
      match rest with
      | PTok.A t :: r =>
        match execQ out (q ++ [QAct.qstore [t]]) with
        | none => Outcome.helpExit
        | some out2 => run r pos out2 ex
      | _ => Outcome.usageError

/-- The `parse_args` call of `main.py`: build the pattern (aborting with a
usage error on an ambiguous abbreviation) and run the consumption loop on
an initially default namespace (`input_file` unset/required,
`output = None`). -/
def parse_args (argv : List String) : Outcome :=
  match patternOf argv with
  | none => Outcome.usageError
  | some toks => run toks none NVal.null []

/-- Exit status of the process for each outcome: `main` returns after a
successful parse (status 0), the help action calls `parser.exit()`
(status 0), and `parser.error` calls `self.exit(2, ...)`. -/
def exitCode : Outcome → Nat
  | Outcome.ok _ => 0
  | Outcome.helpExit => 0
  | Outcome.usageError => 2

/-- Exit status of one whole invocation of `main.py`. -/
def processExit (argv : List String) : Nat :=
  exitCode (parse_args argv)

/-- The description string passed to `ArgumentParser` in `main.py`. -/
def descriptionText : String := "Instrument C code for tracing."

/-- Text of `format_help` preceding the description: the usage line.  The
program name is taken from `sys.argv[0]` at runtime; it is rendered here
as the script name `main.py`. -/
def helpHead : String := "usage: main.py [-h] [-o OUTPUT] input_file\n\n"

/-- Text of `format_help` following the description: the argument
sections generated from the two `add_argument` calls and the automatic
help option. -/
def helpTail : String :=
  "\n\npositional arguments:\n  input_file            Path to the C source file\n\noptions:\n  -h, --help            show this help message and exit\n  -o OUTPUT, --output OUTPUT\n                        Path to the output file\n"

/-- The help text printed by the help action (`format_help`): usage line,
then the configured description, then the argument sections. -/
def helpText : String := helpHead ++ (descriptionText ++ helpTail)

/-- The usage message `parser.error` prints to stderr before exiting with
status 2 (`error` additionally appends one line naming the specific
problem; that message line is elided in this model, which does not track
error-message wording). -/
def usageMessage : String := "usage: main.py [-h] [-o OUTPUT] input_file\n"

/-- Text written to standard output for each outcome: only the help action
writes to stdout. -/
def stdoutOf : Outcome → String
  | Outcome.helpExit => helpText
  | _ => ""

/-- Text written to standard error for each outcome: only `parser.error`
writes to stderr. -/
def stderrOf : Outcome → String
  | Outcome.usageError => usageMessage
  | _ => ""

/-- Whether a token is classified as the help option (in any of its
spellings or abbreviated/attached forms). -/
def isHelpTok (t : String) : Bool :=
  match tokClass t with
  | TokClass.opt Act.help _ _ => true
  | _ => false

/-- Whether a pattern element is the help option. -/
def isHelpO : PTok → Bool
  | PTok.O Act.help _ _ => true
  | _ => false

/-- Whether a pattern element is a positional token or an unrecognized
option (both are consumed without error and without exiting). -/
def isAU : PTok → Bool
  | PTok.A _ => true
  | PTok.U _ => true
  | _ => false

/-- An abstract filesystem: a map from paths to file contents.  The source
performs no filesystem operation (argparse only inspects the argument
list and writes to the standard streams), so the embedding of a whole
invocation of `main` threads the filesystem through unchanged. -/
def FileSystem : Type := List (String × String)

/-- One whole invocation of `main` as a function of the argument vector
and the ambient filesystem: the filesystem is neither read (the outcome
does not depend on it; in particular `input_file` is never opened or
checked for existence) nor written. -/
def mainWithFS (argv : List String) (fs : FileSystem) : Outcome × FileSystem :=
  (parse_args argv, fs)

/-! Classification facts for the concrete option tokens. -/

theorem tokClass_dd : tokClass "--" = TokClass.ambig := by decide

theorem tokClass_h : tokClass "-h" = TokClass.opt Act.help true none := by decide

theorem tokClass_help : tokClass "--help" = TokClass.opt Act.help false none := by decide

theorem tokClass_o : tokClass "-o" = TokClass.opt Act.output true none := by decide

theorem tokClass_output : tokClass "--output" = TokClass.opt Act.output false none := by decide

theorem ne_dd_of_pos {p : String} (h : tokClass p = TokClass.pos) : p ≠ "--" := by
  intro hp
  rw [hp, tokClass_dd] at h
  exact TokClass.noConfusion h

theorem ne_dd_of_unknown {p : String} (h : tokClass p = TokClass.unknown) : p ≠ "--" := by
  intro hp
  rw [hp, tokClass_dd] at h
  exact TokClass.noConfusion h

/-! Values produced by `_get_values` for the consumed argument lists that
actually arise: the positional can consume its token together with the
`-` of the first `--` on either side, and the stripping of the first `--`
then always leaves the token itself. -/

theorem storedVal_single {s : String} (h : s ≠ "--") : storedVal [s] = NVal.str s := by
  simp [storedVal, removeFirstDD, h]

theorem storedVal_trailingDD (s : String) : storedVal [s, "--"] = NVal.str s := by
  by_cases h : s = "--" <;> simp [storedVal, removeFirstDD, h]

theorem storedVal_leadingDD (s : String) : storedVal ["--", s] = NVal.str s := by
  simp [storedVal, removeFirstDD]

/-! Facts about pattern construction. -/

theorem toPTok_pos {s : String} (h : tokClass s = TokClass.pos) : toPTok s = some (PTok.A s) := by
  simp [toPTok, h]

theorem toPTok_unknown {s : String} (h : tokClass s = TokClass.unknown) :
    toPTok s = some (PTok.U s) := by
  simp [toPTok, h]

theorem toPTok_opt {s : String} {a : Act} {sh : Bool} {e : Option String}
    (h : tokClass s = TokClass.opt a sh e) : toPTok s = some (PTok.O a sh e) := by
  simp [toPTok, h]

theorem patternOf_append {l1 l2 : List String} (h : "--" ∉ l1) :
    patternOf (l1 ++ l2) =
      (patternOf l1).bind (fun a => (patternOf l2).map (fun b => a ++ b)) := by
  induction l1 with
  | nil =>
    cases hl : patternOf l2 <;> simp [patternOf, hl]
  | cons s l1 ih =>
    have hs : s ≠ "--" := fun hq => h (by simp [hq])
    have h1 : "--" ∉ l1 := fun hq => h (by simp [hq])
    simp only [List.cons_append, patternOf, if_neg hs]
    cases htp : toPTok s with
    | none => simp
    | some t =>
      simp only [List.append_eq, ih h1]
      cases patternOf l1 <;> cases patternOf l2 <;> simp

theorem patternOf_allPos {l : List String} (h : ∀ t ∈ l, tokClass t = TokClass.pos) :
    patternOf l = some (l.map PTok.A) := by
  induction l with
  | nil => simp [patternOf]
  | cons s l ih =>
    have hs := h s (by simp)
    have hrest : ∀ t ∈ l, tokClass t = TokClass.pos := fun t ht => h t (by simp [ht])
    simp [patternOf, if_neg (ne_dd_of_pos hs), toPTok_pos hs, ih hrest]

theorem patternOf_AU {l : List String}
    (h : ∀ t ∈ l, tokClass t = TokClass.pos ∨ tokClass t = TokClass.unknown) :
    ∃ a, patternOf l = some a ∧ ∀ pt ∈ a, isAU pt = true := by
  induction l with
  | nil => exact ⟨[], by simp [patternOf]⟩
  | cons s l ih =>
    obtain ⟨a, ha, hau⟩ := ih (fun t ht => h t (by simp [ht]))
    rcases h s (by simp) with hs | hs
    · refine ⟨PTok.A s :: a, ?_, ?_⟩
      · simp [patternOf, if_neg (ne_dd_of_pos hs), toPTok_pos hs, ha]
      · intro pt hpt
        rcases List.mem_cons.mp hpt with h1 | h1
        · subst h1; rfl
        · exact hau pt h1
    · refine ⟨PTok.U s :: a, ?_, ?_⟩
      · simp [patternOf, if_neg (ne_dd_of_unknown hs), toPTok_unknown hs, ha]
      · intro pt hpt
        rcases List.mem_cons.mp hpt with h1 | h1
        · subst h1; rfl
        · exact hau pt h1

theorem patternOf_total {l : List String} (h : ∀ t ∈ l, tokClass t ≠ TokClass.ambig) :
    ∃ a, patternOf l = some a := by
  induction l with
  | nil => exact ⟨[], rfl⟩
  | cons s l ih =>
    by_cases hs : s = "--"
    · exact ⟨PTok.dash :: l.map PTok.A, by simp [patternOf, hs]⟩
    · obtain ⟨a, ha⟩ := ih (fun t ht => h t (by simp [ht]))
      have hcl := h s (by simp)
      have hpt : ∃ pt, toPTok s = some pt := by
        unfold toPTok
        cases hc : tokClass s <;> simp_all
      obtain ⟨pt, hpt⟩ := hpt
      exact ⟨pt :: a, by simp [patternOf, hs, hpt, ha]⟩

theorem patternOf_noHelp {l : List String} {a : List PTok} (hp : patternOf l = some a)
    (h : ∀ t ∈ l, isHelpTok t = false) : ∀ pt ∈ a, isHelpO pt = false := by
  induction l generalizing a with
  | nil =>
    simp only [patternOf, Option.some.injEq] at hp
    subst hp
    simp
  | cons s l ih =>
    by_cases hs : s = "--"
    · simp only [patternOf, if_pos hs, Option.some.injEq] at hp
      subst hp
      intro pt hpt
      rcases List.mem_cons.mp hpt with h1 | h1
      · subst h1; rfl
      · obtain ⟨s2, _, h3⟩ := List.mem_map.mp h1
        subst h3; rfl
    · simp only [patternOf, if_neg hs] at hp
      cases htp : tokClass s with
      | pos =>
        rw [toPTok_pos htp] at hp
        cases hpl : patternOf l with
        | none => rw [hpl] at hp; simp at hp
        | some b =>
          rw [hpl] at hp
          obtain rfl : _ :: b = a := by simpa using hp
          intro pt hpt
          rcases List.mem_cons.mp hpt with h1 | h1
          · subst h1; rfl
          · exact ih hpl (fun t ht => h t (by simp [ht])) pt h1
      | unknown =>
        rw [toPTok_unknown htp] at hp
        cases hpl : patternOf l with
        | none => rw [hpl] at hp; simp at hp
        | some b =>
          rw [hpl] at hp
          obtain rfl : _ :: b = a := by simpa using hp
          intro pt hpt
          rcases List.mem_cons.mp hpt with h1 | h1
          · subst h1; rfl
          · exact ih hpl (fun t ht => h t (by simp [ht])) pt h1
      | ambig => rw [show toPTok s = none from by simp [toPTok, htp]] at hp; simp at hp
      | opt a0 sh e =>
        rw [toPTok_opt htp] at hp
        cases hpl : patternOf l with
        | none => rw [hpl] at hp; simp at hp
        | some b =>
          rw [hpl] at hp
          obtain rfl : _ :: b = a := by simpa using hp
          intro pt hpt
          rcases List.mem_cons.mp hpt with h1 | h1
          · subst h1
            have hh := h s (by simp)
            cases a0 with
            | help => simp [isHelpTok, htp] at hh
            | output => rfl
          · exact ih hpl (fun t ht => h t (by simp [ht])) pt h1

theorem patternOf_memU {l : List String} {a : List PTok} {u : String}
    (hp : patternOf l = some a) (hmem : u ∈ l) (hu : tokClass u = TokClass.unknown)
    (hnd : "--" ∉ l) : PTok.U u ∈ a := by
  induction l generalizing a with
  | nil => simp at hmem
  | cons s l ih =>
    have hs : s ≠ "--" := fun hq => hnd (by simp [hq])
    simp only [patternOf, if_neg hs] at hp
    cases htp : toPTok s with
    | none => rw [htp] at hp; simp at hp
    | some t =>
      rw [htp] at hp
      cases hpl : patternOf l with
      | none => rw [hpl] at hp; simp at hp
      | some b =>
        rw [hpl] at hp
        obtain rfl : _ :: b = a := by simpa using hp
        rcases List.mem_cons.mp hmem with h1 | h1
        · subst h1
          rw [toPTok_unknown hu] at htp
          simp only [Option.some.injEq] at htp
          subst htp
          exact List.mem_cons_self _ _
        · exact List.mem_cons_of_mem _
            (ih hpl h1 (fun hq => hnd (by simp [hq])))

/-! Behaviour of the consumption loop. -/

theorem hasU_tail {t : PTok} {L : List PTok} (hne : ∀ s, t ≠ PTok.U s)
    (h : ∃ s, PTok.U s ∈ t :: L) : ∃ s, PTok.U s ∈ L := by
  obtain ⟨s, hs⟩ := h
  rcases List.mem_cons.mp hs with h1 | h1
  · exact absurd h1.symm (hne s)
  · exact ⟨s, h1⟩

/-- If the pattern reaches a help option with no explicit argument, and
every earlier element is a positional or an unrecognized option (both of
which are consumed silently), the help action fires and the process
exits 0, whatever follows. -/
theorem run_helpFirst {preP : List PTok} (hpre : ∀ t ∈ preP, isAU t = true)
    (sh : Bool) (rest : List PTok) :
    ∀ pos out ex, run (preP ++ PTok.O Act.help sh none :: rest) pos out ex = Outcome.helpExit := by
  induction preP with
  | nil =>
    intro pos out ex
    simp [run, chainCore, chainNone, execQ]
  | cons t preP ih =>
    intro pos out ex
    have hrest : ∀ x ∈ preP, isAU x = true := fun x hx => hpre x (by simp [hx])
    have ih2 := ih hrest
    cases t with
    | A s =>
      cases pos with
      | some v => simpa [run] using ih2 (some v) out (ex ++ [s])
      | none =>
        cases preP with
        | nil => simpa [run] using ih2 (some (storedVal [s])) out ex
        | cons t2 preP2 =>
          have ht2 := hpre t2 (by simp)
          cases t2 with
          | A s2 => simpa [run] using ih2 (some (storedVal [s])) out ex
          | U s2 => simpa [run] using ih2 (some (storedVal [s])) out ex
          | O a2 sh2 e2 => simp [isAU] at ht2
          | dash => simp [isAU] at ht2
    | U s => simpa [run] using ih2 pos out (ex ++ [s])
    | O a2 sh2 e2 => have := hpre _ (List.mem_cons_self _ _); simp [isAU] at this
    | dash => have := hpre _ (List.mem_cons_self _ _); simp [isAU] at this

/-- With the input-file slot already filled, a pattern consisting only of
positional tokens can only grow the extras list, so any extra positional
or already-nonempty extras force the unrecognized-arguments error. -/
theorem run_allA :
    ∀ (l : List String) (v out : NVal) (ex : List String),
      ex ≠ [] ∨ l ≠ [] →
      run (l.map PTok.A) (some v) out ex = Outcome.usageError := by
  intro l
  induction l with
  | nil =>
    intro v out ex h
    rcases h with h | h
    · simp [run, List.isEmpty_iff, h]
    · simp at h
  | cons s l ih =>
    intro v out ex _
    simpa [run] using ih v out (ex ++ [s]) (Or.inl (by simp))

/-- Master lemma for guaranteed usage errors: if the pattern contains no
help option, then a pending failure (an unrecognized option somewhere in
the remaining pattern, or an already-nonempty extras list) forces the
final outcome to be a usage error: nothing later can remove extras, and
only a help option could exit successfully before the final checks. -/
theorem run_pending :
    ∀ (n : Nat) (L : List PTok), L.length ≤ n → ∀ pos out ex,
      (∀ t ∈ L, isHelpO t = false) →
      ((∃ s, PTok.U s ∈ L) ∨ ex ≠ []) →
      run L pos out ex = Outcome.usageError := by
  intro n
  induction n with
  | zero =>
    intro L hL pos out ex hH hP
    have hnil : L = [] := List.eq_nil_of_length_eq_zero (Nat.le_zero.mp hL)
    subst hnil
    rcases hP with ⟨s, hs⟩ | hex
    · simp at hs
    · cases pos with
      | none => simp [run]
      | some v => simp [run, List.isEmpty_iff, hex]
  | succ n ih =>
    intro L hL pos out ex hH hP
    cases L with
    | nil =>
      rcases hP with ⟨s, hs⟩ | hex
      · simp at hs
      · cases pos with
        | none => simp [run]
        | some v => simp [run, List.isEmpty_iff, hex]
    | cons t L =>
      have hH2 : ∀ x ∈ L, isHelpO x = false := fun x hx => hH x (by simp [hx])
      cases t with
      | A s =>
        have hP2 : (∃ s2, PTok.U s2 ∈ L) ∨ ex ≠ [] := by
          rcases hP with hU | hex
          · exact Or.inl (hasU_tail (by simp) hU)
          · exact Or.inr hex
        cases pos with
        | some v =>
          have hlen : L.length ≤ n := by simp only [List.length_cons] at hL; omega
          simpa [run] using ih L hlen (some v) out (ex ++ [s]) hH2 (Or.inr (by simp))
        | none =>
          cases L with
          | nil =>
            rcases hP2 with ⟨s2, hs2⟩ | hex
            · simp at hs2
            · simp [run, List.isEmpty_iff, hex]
          | cons t2 L2 =>
            have hH3 : ∀ x ∈ L2, isHelpO x = false := fun x hx => hH2 x (by simp [hx])
            have hlen : L2.length ≤ n := by simp only [List.length_cons] at hL; omega
            have hlen2 : (t2 :: L2).length ≤ n := by
              simp only [List.length_cons] at hL ⊢; omega
            cases t2 with
            | dash =>
              have hP3 : (∃ s2, PTok.U s2 ∈ L2) ∨ ex ≠ [] := by
                rcases hP2 with hU | hex
                · exact Or.inl (hasU_tail (by simp) hU)
                · exact Or.inr hex
              simpa [run] using ih L2 hlen (some (storedVal [s, "--"])) out ex hH3 hP3
            | A s2 =>
              simpa [run] using
                ih (PTok.A s2 :: L2) hlen2 (some (storedVal [s])) out ex hH2 hP2
            | U s2 =>
              simpa [run] using
                ih (PTok.U s2 :: L2) hlen2 (some (storedVal [s])) out ex hH2 hP2
            | O a2 sh2 e2 =>
              simpa [run] using
                ih (PTok.O a2 sh2 e2 :: L2) hlen2 (some (storedVal [s])) out ex hH2 hP2
      | U s =>
        have hlen : L.length ≤ n := by simp only [List.length_cons] at hL; omega
        simpa [run] using ih L hlen pos out (ex ++ [s]) hH2 (Or.inr (by simp))
      | dash =>
        have hP2 : (∃ s2, PTok.U s2 ∈ L) ∨ ex ≠ [] := by
          rcases hP with hU | hex
          · exact Or.inl (hasU_tail (by simp) hU)
          · exact Or.inr hex
        cases pos with
        | some v =>
          have hlen : L.length ≤ n := by simp only [List.length_cons] at hL; omega
          simpa [run] using ih L hlen (some v) out (ex ++ ["--"]) hH2 (Or.inr (by simp))
        | none =>
          cases L with
          | nil => simp [run]
          | cons t2 L2 =>
            have hH3 : ∀ x ∈ L2, isHelpO x = false := fun x hx => hH2 x (by simp [hx])
            have hlen : L2.length ≤ n := by simp only [List.length_cons] at hL; omega
            have hlen2 : (t2 :: L2).length ≤ n := by
              simp only [List.length_cons] at hL ⊢; omega
            cases t2 with
            | A s2 =>
              have hP3 : (∃ s3, PTok.U s3 ∈ L2) ∨ ex ≠ [] := by
                rcases hP2 with hU | hex
                · exact Or.inl (hasU_tail (by simp) hU)
                · exact Or.inr hex
              simpa [run] using ih L2 hlen (some (storedVal ["--", s2])) out ex hH3 hP3
            | U s2 =>
              simpa [run] using
                ih (PTok.U s2 :: L2) hlen2 none out (ex ++ ["--"]) hH2 (Or.inr (by simp))
            | O a2 sh2 e2 =>
              simpa [run] using
                ih (PTok.O a2 sh2 e2 :: L2) hlen2 none out (ex ++ ["--"]) hH2 (Or.inr (by simp))
            | dash =>
              simpa [run] using
                ih (PTok.dash :: L2) hlen2 none out (ex ++ ["--"]) hH2 (Or.inr (by simp))
      | O a2 sh2 e2 =>
        cases a2 with
        | help => have := hH _ (List.mem_cons_self _ _); simp [isHelpO] at this
        | output =>
          have hP2 : (∃ s2, PTok.U s2 ∈ L) ∨ ex ≠ [] := by
            rcases hP with hU | hex
            · exact Or.inl (hasU_tail (by simp) hU)
            · exact Or.inr hex
          cases e2 with
          | some s2 =>
            have hlen : L.length ≤ n := by simp only [List.length_cons] at hL; omega
            simpa [run, chainCore, chainSome, execQ] using
              ih L hlen pos (storedVal [String.mk s2.data]) ex hH2 hP2
          | none =>
            cases L with
            | nil => simp [run, chainCore, chainNone]
            | cons t2 L2 =>
              have hH3 : ∀ x ∈ L2, isHelpO x = false := fun x hx => hH2 x (by simp [hx])
              have hlen : L2.length ≤ n := by simp only [List.length_cons] at hL; omega
              cases t2 with
              | A s2 =>
                have hP3 : (∃ s3, PTok.U s3 ∈ L2) ∨ ex ≠ [] := by
                  rcases hP2 with hU | hex
                  · exact Or.inl (hasU_tail (by simp) hU)
                  · exact Or.inr hex
                simpa [run, chainCore, chainNone, execQ] using
                  ih L2 hlen pos (storedVal [s2]) ex hH3 hP3
              | U s2 => simp [run, chainCore, chainNone]
              | O a3 sh3 e3 => simp [run, chainCore, chainNone]
              | dash => simp [run, chainCore, chainNone]

/-- If the whole pattern ends in an output option with no explicit
argument and contains no help option, the parse always fails: the final
option has no following token to match `(A)` against, so processing
either errors earlier or errors there with "expected one argument". -/
theorem run_tailOutput :
    ∀ (n : Nat) (L : List PTok), L.length ≤ n → ∀ pos out ex (sh : Bool),
      (∀ t ∈ L, isHelpO t = false) →
      run (L ++ [PTok.O Act.output sh none]) pos out ex = Outcome.usageError := by
  intro n
  induction n with
  | zero =>
    intro L hL pos out ex sh _
    have hnil : L = [] := List.eq_nil_of_length_eq_zero (Nat.le_zero.mp hL)
    subst hnil
    simp [run, chainCore, chainNone]
  | succ n ih =>
    intro L hL pos out ex sh hH
    cases L with
    | nil => simp [run, chainCore, chainNone]
    | cons t L =>
      have hH2 : ∀ x ∈ L, isHelpO x = false := fun x hx => hH x (by simp [hx])
      cases t with
      | A s =>
        cases pos with
        | some v =>
          have hlen : L.length ≤ n := by simp only [List.length_cons] at hL; omega
          simpa [run] using ih L hlen (some v) out (ex ++ [s]) sh hH2
        | none =>
          cases L with
          | nil => simp [run, chainCore, chainNone]
          | cons t2 L2 =>
            have hH3 : ∀ x ∈ L2, isHelpO x = false := fun x hx => hH2 x (by simp [hx])
            have hlen : L2.length ≤ n := by simp only [List.length_cons] at hL; omega
            have hlen2 : (t2 :: L2).length ≤ n := by
              simp only [List.length_cons] at hL ⊢; omega
            cases t2 with
            | dash =>
              simpa [run] using ih L2 hlen (some (storedVal [s, "--"])) out ex sh hH3
            | A s2 =>
              simpa [run] using
                ih (PTok.A s2 :: L2) hlen2 (some (storedVal [s])) out ex sh hH2
            | U s2 =>
              simpa [run] using
                ih (PTok.U s2 :: L2) hlen2 (some (storedVal [s])) out ex sh hH2
            | O a2 sh2 e2 =>
              simpa [run] using
                ih (PTok.O a2 sh2 e2 :: L2) hlen2 (some (storedVal [s])) out ex sh hH2
      | U s =>
        have hlen : L.length ≤ n := by simp only [List.length_cons] at hL; omega
        simpa [run] using ih L hlen pos out (ex ++ [s]) sh hH2
      | dash =>
        cases pos with
        | some v =>
          have hlen : L.length ≤ n := by simp only [List.length_cons] at hL; omega
          simpa [run] using ih L hlen (some v) out (ex ++ ["--"]) sh hH2
        | none =>
          cases L with
          | nil => simp [run, chainCore, chainNone]
          | cons t2 L2 =>
            have hH3 : ∀ x ∈ L2, isHelpO x = false := fun x hx => hH2 x (by simp [hx])
            have hlen : L2.length ≤ n := by simp only [List.length_cons] at hL; omega
            have hlen2 : (t2 :: L2).length ≤ n := by
              simp only [List.length_cons] at hL ⊢; omega
            cases t2 with
            | A s2 =>
              simpa [run] using ih L2 hlen (some (storedVal ["--", s2])) out ex sh hH3
            | U s2 =>
              simpa [run] using
                ih (PTok.U s2 :: L2) hlen2 none out (ex ++ ["--"]) sh hH2
            | O a2 sh2 e2 =>
              simpa [run] using
                ih (PTok.O a2 sh2 e2 :: L2) hlen2 none out (ex ++ ["--"]) sh hH2
            | dash =>
              simpa [run] using
                ih (PTok.dash :: L2) hlen2 none out (ex ++ ["--"]) sh hH2
      | O a2 sh2 e2 =>
        cases a2 with
        | help => have := hH _ (List.mem_cons_self _ _); simp [isHelpO] at this
        | output =>
          cases e2 with
          | some s2 =>
            have hlen : L.length ≤ n := by simp only [List.length_cons] at hL; omega
            simpa [run, chainCore, chainSome, execQ] using
              ih L hlen pos (storedVal [String.mk s2.data]) ex sh hH2
          | none =>
            cases L with
            | nil => simp [run, chainCore, chainNone]
            | cons t2 L2 =>
              have hH3 : ∀ x ∈ L2, isHelpO x = false := fun x hx => hH2 x (by simp [hx])
              have hlen : L2.length ≤ n := by simp only [List.length_cons] at hL; omega
              cases t2 with
              | A s2 =>
                simpa [run, chainCore, chainNone, execQ] using
                  ih L2 hlen pos (storedVal [s2]) ex sh hH3
              | U s2 => simp [run, chainCore, chainNone]
              | O a3 sh3 e3 => simp [run, chainCore, chainNone]
              | dash => simp [run, chainCore, chainNone]

/-- A token that classifies as anything but a positional never yields an
`A` pattern element. -/
theorem toPTok_notA {t : String} {pt : PTok} (h : toPTok t = some pt)
    (hnp : tokClass t ≠ TokClass.pos) : ∀ s, pt ≠ PTok.A s := by
  intro s
  unfold toPTok at h
  cases hc : tokClass t with
  | pos => exact absurd hc hnp
  | opt a0 sh e =>
    rw [hc] at h
    obtain rfl : PTok.O a0 sh e = pt := by simpa using h
    simp
  | unknown =>
    rw [hc] at h
    obtain rfl : PTok.U t = pt := by simpa using h
    simp
  | ambig => rw [hc] at h; simp at h

/-- If no token of an invocation classifies as a positional (and `--` is
absent), the pattern contains neither `A` elements nor the `-` marker. -/
theorem patternOf_noA {l : List String} {a : List PTok} (hp : patternOf l = some a)
    (hnd : "--" ∉ l) (h : ∀ t ∈ l, tokClass t ≠ TokClass.pos) :
    ∀ pt ∈ a, (∀ s, pt ≠ PTok.A s) ∧ pt ≠ PTok.dash := by
  induction l generalizing a with
  | nil =>
    simp only [patternOf, Option.some.injEq] at hp
    subst hp
    simp
  | cons s l ih =>
    have hs : s ≠ "--" := fun hq => hnd (by simp [hq])
    simp only [patternOf, if_neg hs] at hp
    cases htc : tokClass s with
    | pos => exact absurd htc (h s (by simp))
    | ambig => rw [show toPTok s = none from by simp [toPTok, htc]] at hp; simp at hp
    | opt a0 sh e =>
      rw [toPTok_opt htc] at hp
      cases hpl : patternOf l with
      | none => rw [hpl] at hp; simp at hp
      | some b =>
        rw [hpl] at hp
        obtain rfl : _ :: b = a := by simpa using hp
        intro pt hpt
        rcases List.mem_cons.mp hpt with h1 | h1
        · subst h1; exact ⟨fun s2 => by simp, by simp⟩
        · exact ih hpl (fun hq => hnd (by simp [hq])) (fun t ht => h t (by simp [ht])) pt h1
    | unknown =>
      rw [toPTok_unknown htc] at hp
      cases hpl : patternOf l with
      | none => rw [hpl] at hp; simp at hp
      | some b =>
        rw [hpl] at hp
        obtain rfl : _ :: b = a := by simpa using hp
        intro pt hpt
        rcases List.mem_cons.mp hpt with h1 | h1
        · subst h1; exact ⟨fun s2 => by simp, by simp⟩
        · exact ih hpl (fun hq => hnd (by simp [hq])) (fun t ht => h t (by simp [ht])) pt h1

/-- With no `A` element and no `-` marker in the pattern, the input-file
slot can never be filled, so the required-argument check fails at the
end (or an error strikes earlier): a usage error either way. -/
theorem run_noPosTok (L : List PTok) :
    (∀ pt ∈ L, (∀ s, pt ≠ PTok.A s) ∧ pt ≠ PTok.dash) →
    (∀ pt ∈ L, isHelpO pt = false) →
    ∀ out ex, run L none out ex = Outcome.usageError := by
  induction L with
  | nil => intro _ _ out ex; simp [run]
  | cons t L ih =>
    intro hA hH out ex
    have hA2 : ∀ pt ∈ L, (∀ s, pt ≠ PTok.A s) ∧ pt ≠ PTok.dash :=
      fun pt hpt => hA pt (by simp [hpt])
    have hH2 : ∀ pt ∈ L, isHelpO pt = false := fun pt hpt => hH pt (by simp [hpt])
    cases t with
    | A s => exact absurd rfl ((hA (PTok.A s) (List.mem_cons_self _ _)).1 s)
    | dash => exact absurd rfl (hA PTok.dash (List.mem_cons_self _ _)).2
    | U s => simpa [run] using ih hA2 hH2 out (ex ++ [s])
    | O a0 sh e =>
      cases a0 with
      | help =>
        have := hH (PTok.O Act.help sh e) (List.mem_cons_self _ _)
        simp [isHelpO] at this
      | output =>
        cases e with
        | some s2 =>
          simpa [run, chainCore, chainSome, execQ] using
            ih hA2 hH2 (storedVal [String.mk s2.data]) ex
        | none =>
          cases L with
          | nil => simp [run, chainCore, chainNone]
          | cons t2 L2 =>
            cases t2 with
            | A s2 => exact absurd rfl ((hA (PTok.A s2) (by simp)).1 s2)
            | U s2 => simp [run, chainCore, chainNone]
            | O a1 sh1 e1 => simp [run, chainCore, chainNone]
            | dash => simp [run, chainCore, chainNone]

/-- With no help option in the pattern, the help action can never fire:
the outcome of the consumption loop is a parsed namespace or a usage
error, never the help exit. -/
theorem run_noHelpExit :
    ∀ (n : Nat) (L : List PTok), L.length ≤ n → ∀ pos out ex,
      (∀ t ∈ L, isHelpO t = false) →
      run L pos out ex ≠ Outcome.helpExit := by
  intro n
  induction n with
  | zero =>
    intro L hL pos out ex _
    have hnil : L = [] := List.eq_nil_of_length_eq_zero (Nat.le_zero.mp hL)
    subst hnil
    cases pos with
    | none => simp [run]
    | some v => by_cases hex : ex.isEmpty <;> simp [run, hex]
  | succ n ih =>
    intro L hL pos out ex hH
    cases L with
    | nil =>
      cases pos with
      | none => simp [run]
      | some v => by_cases hex : ex.isEmpty <;> simp [run, hex]
    | cons t L =>
      have hH2 : ∀ x ∈ L, isHelpO x = false := fun x hx => hH x (by simp [hx])
      cases t with
      | A s =>
        cases pos with
        | some v =>
          have hlen : L.length ≤ n := by simp only [List.length_cons] at hL; omega
          simpa [run] using ih L hlen (some v) out (ex ++ [s]) hH2
        | none =>
          cases L with
          | nil =>
            by_cases hex : ex.isEmpty <;> simp [run, hex]
          | cons t2 L2 =>
            have hH3 : ∀ x ∈ L2, isHelpO x = false := fun x hx => hH2 x (by simp [hx])
            have hlen : L2.length ≤ n := by simp only [List.length_cons] at hL; omega
            have hlen2 : (t2 :: L2).length ≤ n := by
              simp only [List.length_cons] at hL ⊢; omega
            cases t2 with
            | dash =>
              simpa [run] using ih L2 hlen (some (storedVal [s, "--"])) out ex hH3
            | A s2 =>
              simpa [run] using
                ih (PTok.A s2 :: L2) hlen2 (some (storedVal [s])) out ex hH2
            | U s2 =>
              simpa [run] using
                ih (PTok.U s2 :: L2) hlen2 (some (storedVal [s])) out ex hH2
            | O a2 sh2 e2 =>
              simpa [run] using
                ih (PTok.O a2 sh2 e2 :: L2) hlen2 (some (storedVal [s])) out ex hH2
      | U s =>
        have hlen : L.length ≤ n := by simp only [List.length_cons] at hL; omega
        simpa [run] using ih L hlen pos out (ex ++ [s]) hH2
      | dash =>
        cases pos with
        | some v =>
          have hlen : L.length ≤ n := by simp only [List.length_cons] at hL; omega
          simpa [run] using ih L hlen (some v) out (ex ++ ["--"]) hH2
        | none =>
          cases L with
          | nil => simp [run]
          | cons t2 L2 =>
            have hH3 : ∀ x ∈ L2, isHelpO x = false := fun x hx => hH2 x (by simp [hx])
            have hlen : L2.length ≤ n := by simp only [List.length_cons] at hL; omega
            have hlen2 : (t2 :: L2).length ≤ n := by
              simp only [List.length_cons] at hL ⊢; omega
            cases t2 with
            | A s2 =>
              simpa [run] using ih L2 hlen (some (storedVal ["--", s2])) out ex hH3
            | U s2 =>
              simpa [run] using
                ih (PTok.U s2 :: L2) hlen2 none out (ex ++ ["--"]) hH2
            | O a2 sh2 e2 =>
              simpa [run] using
                ih (PTok.O a2 sh2 e2 :: L2) hlen2 none out (ex ++ ["--"]) hH2
            | dash =>
              simpa [run] using
                ih (PTok.dash :: L2) hlen2 none out (ex ++ ["--"]) hH2
      | O a2 sh2 e2 =>
        cases a2 with
        | help => have := hH _ (List.mem_cons_self _ _); simp [isHelpO] at this
        | output =>
          cases e2 with
          | some s2 =>
            have hlen : L.length ≤ n := by simp only [List.length_cons] at hL; omega
            simpa [run, chainCore, chainSome, execQ] using
              ih L hlen pos (storedVal [String.mk s2.data]) ex hH2
          | none =>
            cases L with
            | nil => simp [run, chainCore, chainNone]
            | cons t2 L2 =>
              have hH3 : ∀ x ∈ L2, isHelpO x = false := fun x hx => hH2 x (by simp [hx])
              have hlen : L2.length ≤ n := by simp only [List.length_cons] at hL; omega
              cases t2 with
              | A s2 =>
                simpa [run, chainCore, chainNone, execQ] using
                  ih L2 hlen pos (storedVal [s2]) ex hH3
              | U s2 => simp [run, chainCore, chainNone]
              | O a3 sh3 e3 => simp [run, chainCore, chainNone]
              | dash => simp [run, chainCore, chainNone]

/-- If the pattern contains an output option with no explicit argument
whose successor (if any) is not an `A` element, and no help option occurs
before it, the parse always fails: the option cannot match `(A)`, so
processing errors there or earlier. -/
theorem run_midOutput :
    ∀ (n : Nat) (L1 : List PTok), L1.length ≤ n → ∀ pos out ex (sh : Bool) (L2 : List PTok),
      (∀ t ∈ L1, isHelpO t = false) →
      (∀ s r, L2 ≠ PTok.A s :: r) →
      run (L1 ++ PTok.O Act.output sh none :: L2) pos out ex = Outcome.usageError := by
  intro n
  induction n with
  | zero =>
    intro L1 hL pos out ex sh L2 _ hNA
    have hnil : L1 = [] := List.eq_nil_of_length_eq_zero (Nat.le_zero.mp hL)
    subst hnil
    cases L2 with
    | nil => simp [run, chainCore, chainNone]
    | cons t2 r =>
      cases t2 with
      | A s2 => exact absurd rfl (hNA s2 r)
      | U s2 => simp [run, chainCore, chainNone]
      | O a1 sh1 e1 => simp [run, chainCore, chainNone]
      | dash => simp [run, chainCore, chainNone]
  | succ n ih =>
    intro L1 hL pos out ex sh L2 hH hNA
    cases L1 with
    | nil =>
      cases L2 with
      | nil => simp [run, chainCore, chainNone]
      | cons t2 r =>
        cases t2 with
        | A s2 => exact absurd rfl (hNA s2 r)
        | U s2 => simp [run, chainCore, chainNone]
        | O a1 sh1 e1 => simp [run, chainCore, chainNone]
        | dash => simp [run, chainCore, chainNone]
    | cons t L1 =>
      have hH2 : ∀ x ∈ L1, isHelpO x = false := fun x hx => hH x (by simp [hx])
      cases t with
      | A s =>
        cases pos with
        | some v =>
          have hlen : L1.length ≤ n := by simp only [List.length_cons] at hL; omega
          simpa [run] using ih L1 hlen (some v) out (ex ++ [s]) sh L2 hH2 hNA
        | none =>
          cases L1 with
          | nil =>
            have hlen : ([] : List PTok).length ≤ n := by simp
            simpa [run] using
              ih [] hlen (some (storedVal [s])) out ex sh L2 (by simp) hNA
          | cons t2 L12 =>
            have hH3 : ∀ x ∈ L12, isHelpO x = false := fun x hx => hH2 x (by simp [hx])
            have hlen : L12.length ≤ n := by simp only [List.length_cons] at hL; omega
            have hlen2 : (t2 :: L12).length ≤ n := by
              simp only [List.length_cons] at hL ⊢; omega
            cases t2 with
            | dash =>
              simpa [run] using
                ih L12 hlen (some (storedVal [s, "--"])) out ex sh L2 hH3 hNA
            | A s2 =>
              simpa [run] using
                ih (PTok.A s2 :: L12) hlen2 (some (storedVal [s])) out ex sh L2 hH2 hNA
            | U s2 =>
              simpa [run] using
                ih (PTok.U s2 :: L12) hlen2 (some (storedVal [s])) out ex sh L2 hH2 hNA
            | O a2 sh2 e2 =>
              simpa [run] using
                ih (PTok.O a2 sh2 e2 :: L12) hlen2 (some (storedVal [s])) out ex sh L2 hH2 hNA
      | U s =>
        have hlen : L1.length ≤ n := by simp only [List.length_cons] at hL; omega
        simpa [run] using ih L1 hlen pos out (ex ++ [s]) sh L2 hH2 hNA
      | dash =>
        cases pos with
        | some v =>
          have hlen : L1.length ≤ n := by simp only [List.length_cons] at hL; omega
          simpa [run] using ih L1 hlen (some v) out (ex ++ ["--"]) sh L2 hH2 hNA
        | none =>
          cases L1 with
          | nil =>
            have hlen : ([] : List PTok).length ≤ n := by simp
            simpa [run] using ih [] hlen none out (ex ++ ["--"]) sh L2 (by simp) hNA
          | cons t2 L12 =>
            have hH3 : ∀ x ∈ L12, isHelpO x = false := fun x hx => hH2 x (by simp [hx])
            have hlen : L12.length ≤ n := by simp only [List.length_cons] at hL; omega
            have hlen2 : (t2 :: L12).length ≤ n := by
              simp only [List.length_cons] at hL ⊢; omega
            cases t2 with
            | A s2 =>
              simpa [run] using
                ih L12 hlen (some (storedVal ["--", s2])) out ex sh L2 hH3 hNA
            | U s2 =>
              simpa [run] using
                ih (PTok.U s2 :: L12) hlen2 none out (ex ++ ["--"]) sh L2 hH2 hNA
            | O a2 sh2 e2 =>
              simpa [run] using
                ih (PTok.O a2 sh2 e2 :: L12) hlen2 none out (ex ++ ["--"]) sh L2 hH2 hNA
            | dash =>
              simpa [run] using
                ih (PTok.dash :: L12) hlen2 none out (ex ++ ["--"]) sh L2 hH2 hNA
      | O a2 sh2 e2 =>
        cases a2 with
        | help => have := hH _ (List.mem_cons_self _ _); simp [isHelpO] at this
        | output =>
          cases e2 with
          | some s2 =>
            have hlen : L1.length ≤ n := by simp only [List.length_cons] at hL; omega
            simpa [run, chainCore, chainSome, execQ] using
              ih L1 hlen pos (storedVal [String.mk s2.data]) ex sh L2 hH2 hNA
          | none =>
            cases L1 with
            | nil =>
              cases L2 with
              | nil => simp [run, chainCore, chainNone]
              | cons t2 r =>
                cases t2 with
                | A s2 => exact absurd rfl (hNA s2 r)
                | U s2 => simp [run, chainCore, chainNone]
                | O a3 sh3 e3 => simp [run, chainCore, chainNone]
                | dash => simp [run, chainCore, chainNone]
            | cons t2 L12 =>
              have hH3 : ∀ x ∈ L12, isHelpO x = false := fun x hx => hH2 x (by simp [hx])
              have hlen : L12.length ≤ n := by simp only [List.length_cons] at hL; omega
              cases t2 with
              | A s2 =>
                simpa [run, chainCore, chainNone, execQ] using
                  ih L12 hlen pos (storedVal [s2]) ex sh L2 hH3 hNA
              | U s2 => simp [run, chainCore, chainNone]
              | O a3 sh3 e3 => simp [run, chainCore, chainNone]
              | dash => simp [run, chainCore, chainNone]

/-- The `=` form of the long option: whatever the attached value `x` is
(even empty or containing further `=` signs), `_parse_optional` splits at
the first `=`, finds the exact option string `--output`, and returns it
with `x` as the explicit argument.  The whole classification computes
definitionally, since the split happens inside the concrete part of the
token. -/
theorem tokClass_outputEq (x : String) :
    tokClass ("--output=" ++ x) = TokClass.opt Act.output false (some x) := rfl

theorem toPTok_oTok : toPTok "-o" = some (PTok.O Act.output true none) := rfl

theorem toPTok_outputTok : toPTok "--output" = some (PTok.O Act.output false none) := rfl

theorem toPTok_hTok : toPTok "-h" = some (PTok.O Act.help true none) := rfl

theorem toPTok_helpTok : toPTok "--help" = some (PTok.O Act.help false none) := rfl

/-! The claims. -/

/-- C1: for every valid invocation that supplies one positional token and
additionally `-o X` or `--output X` (in either order), the parse succeeds
and the resulting Invocation has `output = X`; with neither flag, `output`
is `None`.  In particular `["foo.c", "-o", "out.c"]` yields
`Invocation(input_file = "foo.c", output = "out.c")`. -/
theorem C1_output_option_value (p x : String)
    (hp : tokClass p = TokClass.pos) (hx : tokClass x = TokClass.pos) :
    parse_args [p, "-o", x] = Outcome.ok ⟨NVal.str p, NVal.str x⟩
    ∧ parse_args [p, "--output", x] = Outcome.ok ⟨NVal.str p, NVal.str x⟩
    ∧ parse_args ["-o", x, p] = Outcome.ok ⟨NVal.str p, NVal.str x⟩
    ∧ parse_args ["--output", x, p] = Outcome.ok ⟨NVal.str p, NVal.str x⟩
    ∧ parse_args [p] = Outcome.ok ⟨NVal.str p, NVal.null⟩
    ∧ parse_args ["foo.c", "-o", "out.c"] = Outcome.ok ⟨NVal.str "foo.c", NVal.str "out.c"⟩ := by
  have hpne := ne_dd_of_pos hp
  have hxne := ne_dd_of_pos hx
  refine ⟨?_, ?_, ?_, ?_, ?_, by decide⟩ <;>
    simp [parse_args, patternOf, hpne, hxne, toPTok_pos hp, toPTok_pos hx,
      toPTok_oTok, toPTok_outputTok,
      show ("-o" : String) ≠ "--" by decide, show ("--output" : String) ≠ "--" by decide,
      run, chainCore, chainNone, execQ, storedVal_single hpne, storedVal_single hxne]

/-- C1 witness: the theorem applied at the concrete scenario of the
claim. -/
theorem C1_witness :
    parse_args ["foo.c", "-o", "out.c"] = Outcome.ok ⟨NVal.str "foo.c", NVal.str "out.c"⟩ :=
  (C1_output_option_value "foo.c" "out.c" (by decide) (by decide)).1

/-- C2: for every valid invocation supplying exactly one positional token,
`input_file` equals that token verbatim, with no normalization; in
particular `["foo.c"]` yields
`Invocation(input_file = "foo.c", output = None)`. -/
theorem C2_input_file_verbatim (p : String) (hp : tokClass p = TokClass.pos) :
    parse_args [p] = Outcome.ok ⟨NVal.str p, NVal.null⟩
    ∧ parse_args ["foo.c"] = Outcome.ok ⟨NVal.str "foo.c", NVal.null⟩ := by
  have hpne := ne_dd_of_pos hp
  refine ⟨?_, by decide⟩
  simp [parse_args, patternOf, hpne, toPTok_pos hp, run, storedVal_single hpne]

/-- C2 witness: the theorem applied at the concrete scenario of the
claim. -/
theorem C2_witness : parse_args ["foo.c"] = Outcome.ok ⟨NVal.str "foo.c", NVal.null⟩ :=
  (C2_input_file_verbatim "foo.c" (by decide)).1

/-- C3: the empty argument list fails with a usage error: exit status 2
(hence nonzero), the usage message on stderr, and no Invocation. -/
theorem C3_empty_args_usage_error :
    parse_args [] = Outcome.usageError ∧ processExit [] = 2
    ∧ stderrOf (parse_args []) = usageMessage := by
  refine ⟨rfl, rfl, rfl⟩

/-- C4 counterexample: the claim quantifies over every invocation whose
final token is `-o`, but `["-h", "-o"]` ends in `-o` and exits 0 (help
preempts the missing-argument error), contradicting the claimed non-zero
exit status. -/
theorem C4_counterexample :
    parse_args ["-h", "-o"] = Outcome.helpExit ∧ processExit ["-h", "-o"] = 0 := by decide

/-- C4 amended: for every invocation in which `-o` (or `--output`) is the
final token, provided no token is `--` and no token is recognized as the
help option, the parse fails and the process exits with status 2. -/
theorem C4_output_flag_last_amended (args : List String)
    (hsafe : ∀ t ∈ args, t ≠ "--" ∧ isHelpTok t = false) :
    parse_args (args ++ ["-o"]) = Outcome.usageError
    ∧ parse_args (args ++ ["--output"]) = Outcome.usageError
    ∧ processExit (args ++ ["-o"]) = 2
    ∧ processExit (args ++ ["--output"]) = 2 := by
  have hnd : "--" ∉ args := fun hm => (hsafe _ hm).1 rfl
  have key : ∀ (t : String) (sh : Bool), t ≠ "--" →
      toPTok t = some (PTok.O Act.output sh none) →
      parse_args (args ++ [t]) = Outcome.usageError := by
    intro t sh htne htp
    cases hpa : patternOf args with
    | none => simp [parse_args, patternOf_append hnd, hpa]
    | some a =>
      have hnh : ∀ pt ∈ a, isHelpO pt = false :=
        patternOf_noHelp hpa (fun x hx => (hsafe x hx).2)
      have hrun := run_tailOutput a.length a (le_refl _) none NVal.null [] sh hnh
      simp [parse_args, patternOf_append hnd, hpa, patternOf, htne, htp, hrun]
  have h1 := key "-o" true (by decide) toPTok_oTok
  have h2 := key "--output" false (by decide) toPTok_outputTok
  exact ⟨h1, h2, by simp [processExit, h1, exitCode], by simp [processExit, h2, exitCode]⟩

/-- C4 witness: the amended theorem applied at the concrete input
`["foo.c", "-o"]`. -/
theorem C4_witness : parse_args ["foo.c", "-o"] = Outcome.usageError :=
  (C4_output_flag_last_amended ["foo.c"] (by decide)).1

/-- C5 counterexample: the claim quantifies over every invocation
containing `-h`, but in `["-o", "-h"]` the token `-h` follows `-o`, which
needs an argument, so the parse fails with a usage error and exit status
2 instead of printing help and exiting 0. -/
theorem C5_counterexample :
    parse_args ["-o", "-h"] = Outcome.usageError ∧ processExit ["-o", "-h"] = 2 := by decide

/-- C5 amended: for every invocation containing `-h` or `--help` in which
every earlier token is an ordinary argument (a plain positional or an
unrecognized flag, hence not `--` and not an option expecting a value)
and no later token is an ambiguous abbreviation, the process exits with
status 0 and the emitted help text contains the configured description
string, whose exact wording is "Instrument C code for tracing.". -/
theorem C5_help_flag_amended (pre post : List String) (ht : String)
    (hht : ht = "-h" ∨ ht = "--help")
    (hpre : ∀ t ∈ pre, tokClass t = TokClass.pos ∨ tokClass t = TokClass.unknown)
    (hpost : ∀ t ∈ post, tokClass t ≠ TokClass.ambig) :
    parse_args (pre ++ ht :: post) = Outcome.helpExit
    ∧ processExit (pre ++ ht :: post) = 0
    ∧ stdoutOf (parse_args (pre ++ ht :: post)) = helpText
    ∧ helpText = helpHead ++ (descriptionText ++ helpTail)
    ∧ descriptionText = "Instrument C code for tracing." := by
  have hpredd : "--" ∉ pre := by
    intro hmem
    have h := hpre _ hmem
    rw [tokClass_dd] at h
    rcases h with h | h <;> exact absurd h (by decide)
  obtain ⟨preP, hpreP, hAU⟩ := patternOf_AU hpre
  obtain ⟨postP, hpostP⟩ := patternOf_total hpost
  obtain ⟨sh, hsh⟩ : ∃ sh, toPTok ht = some (PTok.O Act.help sh none) := by
    rcases hht with rfl | rfl
    · exact ⟨true, toPTok_hTok⟩
    · exact ⟨false, toPTok_helpTok⟩
  have hhtne : ht ≠ "--" := by rcases hht with rfl | rfl <;> decide
  have hmain : parse_args (pre ++ ht :: post) = Outcome.helpExit := by
    have hrun := run_helpFirst hAU sh postP none NVal.null []
    simp [parse_args, patternOf_append hpredd, hpreP, patternOf, hhtne, hsh, hpostP, hrun]
  refine ⟨hmain, by simp [processExit, hmain, exitCode], by simp [hmain, stdoutOf], rfl, rfl⟩

/-- C5 witness: the amended theorem applied at the concrete input
`["foo.c", "-h"]`. -/
theorem C5_witness : parse_args ["foo.c", "-h"] = Outcome.helpExit :=
  (C5_help_flag_amended ["foo.c"] [] "-h" (Or.inl rfl) (by decide) (by decide)).1

/-- C6 counterexample: the claim quantifies over every malformed
invocation, but `["-h"]` supplies no positional (a malformed invocation
by the claim's first family) and exits 0 through the help action, and
`["-h", "-x"]` supplies an unrecognized flag yet also exits 0; neither
raises a UsageError. -/
theorem C6_counterexample :
    parse_args ["-h"] = Outcome.helpExit ∧ processExit ["-h"] = 0
    ∧ parse_args ["-h", "-x"] = Outcome.helpExit ∧ processExit ["-h", "-x"] = 0 := by decide

/-- C6 amended: provided no token is `--` and no token is recognized as
the help option, the process never exits through help, so every parse
either succeeds or fails with a UsageError; each malformed family then
fails universally with a usage error: an invocation none of whose tokens
classifies as a positional (the required positional is missing), an
invocation supplying an unrecognized flag, and an invocation in which
`-o`/`--output` is not followed by a positional value token.  A usage
error writes the usage message to stderr and exits with status 2; a
successful parse exits with status 0. -/
theorem C6_usage_error_amended (args : List String)
    (hsafe : ∀ t ∈ args, t ≠ "--" ∧ isHelpTok t = false) :
    parse_args args ≠ Outcome.helpExit
    ∧ ((∀ t ∈ args, tokClass t ≠ TokClass.pos) → parse_args args = Outcome.usageError)
    ∧ ((∃ u ∈ args, tokClass u = TokClass.unknown) → parse_args args = Outcome.usageError)
    ∧ (∀ l1 t l2 (sh : Bool), args = l1 ++ t :: l2 →
        tokClass t = TokClass.opt Act.output sh none →
        (∀ t2 ∈ l2.head?, tokClass t2 ≠ TokClass.pos) →
        parse_args args = Outcome.usageError)
    ∧ (∀ inv, parse_args args = Outcome.ok inv → processExit args = 0)
    ∧ (parse_args args = Outcome.usageError →
        processExit args = 2 ∧ stderrOf (parse_args args) = usageMessage) := by
  have hnd : "--" ∉ args := fun hm => (hsafe _ hm).1 rfl
  have hhelp : ∀ t ∈ args, isHelpTok t = false := fun t ht => (hsafe t ht).2
  refine ⟨?_, ?_, ?_, ?_,
    fun inv h => by simp [processExit, h, exitCode],
    fun h => ⟨by simp [processExit, h, exitCode], by simp [h, stderrOf]⟩⟩
  · cases hpa : patternOf args with
    | none => simp [parse_args, hpa]
    | some a =>
      have hnh : ∀ pt ∈ a, isHelpO pt = false := patternOf_noHelp hpa hhelp
      have hne := run_noHelpExit a.length a (le_refl _) none NVal.null [] hnh
      simpa [parse_args, hpa] using hne
  · intro hnp
    cases hpa : patternOf args with
    | none => simp [parse_args, hpa]
    | some a =>
      have hnh : ∀ pt ∈ a, isHelpO pt = false := patternOf_noHelp hpa hhelp
      have hna := patternOf_noA hpa hnd hnp
      have hrun := run_noPosTok a hna hnh NVal.null []
      simp [parse_args, hpa, hrun]
  · rintro ⟨u, hmem, hu⟩
    cases hpa : patternOf args with
    | none => simp [parse_args, hpa]
    | some a =>
      have hnh : ∀ pt ∈ a, isHelpO pt = false := patternOf_noHelp hpa hhelp
      have hUmem := patternOf_memU hpa hmem hu hnd
      have hrun := run_pending a.length a (le_refl _) none NVal.null [] hnh
        (Or.inl ⟨u, hUmem⟩)
      simp [parse_args, hpa, hrun]
  · intro l1 t l2 sh heq htc hhead
    subst heq
    have hnd1 : "--" ∉ l1 := fun hm => (hsafe _ (by simp [hm])).1 rfl
    have htne : t ≠ "--" := (hsafe t (by simp)).1
    cases hp1 : patternOf l1 with
    | none => simp [parse_args, patternOf_append hnd1, hp1]
    | some l1P =>
      have hHelp1 : ∀ pt ∈ l1P, isHelpO pt = false :=
        patternOf_noHelp hp1 (fun x hx => (hsafe x (by simp [hx])).2)
      cases l2 with
      | nil =>
        have hrun := run_midOutput l1P.length l1P (le_refl _) none NVal.null [] sh []
          hHelp1 (by intro s r h; simp at h)
        simp [parse_args, patternOf_append hnd1, hp1, patternOf, htne,
          toPTok_opt htc, hrun]
      | cons t2 l2b =>
        have ht2ne : t2 ≠ "--" := (hsafe t2 (by simp)).1
        have ht2np : tokClass t2 ≠ TokClass.pos := hhead t2 (by simp)
        cases htp2 : toPTok t2 with
        | none =>
          simp [parse_args, patternOf_append hnd1, hp1, patternOf, htne, ht2ne,
            toPTok_opt htc, htp2]
        | some pt2 =>
          have hptA : ∀ s, pt2 ≠ PTok.A s := toPTok_notA htp2 ht2np
          cases hp2 : patternOf l2b with
          | none =>
            simp [parse_args, patternOf_append hnd1, hp1, patternOf, htne, ht2ne,
              toPTok_opt htc, htp2, hp2]
          | some b =>
            have hrun := run_midOutput l1P.length l1P (le_refl _) none NVal.null [] sh
              (pt2 :: b) hHelp1
              (by intro s r hh; injection hh with h1 h2; exact hptA s h1)
            simp [parse_args, patternOf_append hnd1, hp1, patternOf, htne, ht2ne,
              toPTok_opt htc, htp2, hp2, hrun]

/-- C6 witness: the amended theorem applied at the concrete input
`["foo.c", "-x"]`, a malformed invocation of the unrecognized-flag
family. -/
theorem C6_witness :
    parse_args ["foo.c", "-x"] = Outcome.usageError
    ∧ processExit ["foo.c", "-x"] = 2 := by
  have h := C6_usage_error_amended ["foo.c", "-x"] (by decide)
  have h3 := h.2.2.1 ⟨"-x", by decide, by decide⟩
  exact ⟨h3, (h.2.2.2.2.2 h3).1⟩

/-- C7 counterexample: the claim quantifies over every invocation
supplying an unrecognized flag, but `["-h", "-x"]` supplies the
unrecognized flag `-x` and exits 0 through the help action instead of
failing with a usage error. -/
theorem C7_counterexample :
    tokClass "-x" = TokClass.unknown ∧ parse_args ["-h", "-x"] = Outcome.helpExit := by decide

/-- C7 amended: for every invocation supplying a flag other than `-o`,
`--output`, `-h`, `--help` (an unrecognized flag), provided no token is
`--` and no token is recognized as the help option, the parse fails with
a usage error and no Invocation is produced. -/
theorem C7_unknown_flag_amended (args : List String) (u : String)
    (hu : tokClass u = TokClass.unknown) (hmem : u ∈ args)
    (hsafe : ∀ t ∈ args, t ≠ "--" ∧ isHelpTok t = false) :
    parse_args args = Outcome.usageError ∧ processExit args = 2 := by
  have hnd : "--" ∉ args := fun hm => (hsafe _ hm).1 rfl
  have hmain : parse_args args = Outcome.usageError := by
    cases hpa : patternOf args with
    | none => simp [parse_args, hpa]
    | some a =>
      have hnh : ∀ pt ∈ a, isHelpO pt = false :=
        patternOf_noHelp hpa (fun x hx => (hsafe x hx).2)
      have hUmem := patternOf_memU hpa hmem hu hnd
      have hrun := run_pending a.length a (le_refl _) none NVal.null [] hnh
        (Or.inl ⟨u, hUmem⟩)
      simp [parse_args, hpa, hrun]
  exact ⟨hmain, by simp [processExit, hmain, exitCode]⟩

/-- C7 witness: the amended theorem applied at the concrete input
`["foo.c", "-x"]`. -/
theorem C7_witness : parse_args ["foo.c", "-x"] = Outcome.usageError :=
  (C7_unknown_flag_amended ["foo.c", "-x"] "-x" (by decide) (by decide) (by decide)).1

/-- C8: the argument parser performs no filesystem reads or writes: the
filesystem is returned unchanged, the outcome does not depend on the
filesystem (in particular no existence or readability check of
`input_file`), and the only stream output is the help text on stdout or
the usage message on stderr. -/
theorem C8_no_filesystem_effects :
    ∀ (argv : List String) (fs fs2 : FileSystem),
      (mainWithFS argv fs).2 = fs
      ∧ (mainWithFS argv fs).1 = (mainWithFS argv fs2).1
      ∧ (stdoutOf (parse_args argv) = "" ∨ stdoutOf (parse_args argv) = helpText)
      ∧ (stderrOf (parse_args argv) = "" ∨ stderrOf (parse_args argv) = usageMessage) := by
  intro argv fs fs2
  refine ⟨rfl, rfl, ?_, ?_⟩ <;> cases parse_args argv <;> simp [stdoutOf, stderrOf]

/-- C9 counterexample: the claim quantifies over every value `X` of the
single-token form `--output=X`, but for `X = "--"` the stored value is
the empty list (the `--` is stripped by `_get_values`), not the string
`"--"`. -/
theorem C9_counterexample :
    parse_args ["foo.c", "--output=" ++ "--"] = Outcome.ok ⟨NVal.str "foo.c", NVal.strs []⟩
    ∧ parse_args ["foo.c", "--output=" ++ "--"]
        ≠ Outcome.ok ⟨NVal.str "foo.c", NVal.str "--"⟩ := by decide

/-- C9 amended: for every invocation supplying the single-token form
`--output=X` with `X ≠ "--"`, together with the required positional, the
parse succeeds and `output` equals `X`, exactly as with the two-token
form. -/
theorem C9_output_equals_form_amended (p x : String)
    (hp : tokClass p = TokClass.pos) (hx : x ≠ "--") :
    parse_args [p, "--output=" ++ x] = Outcome.ok ⟨NVal.str p, NVal.str x⟩
    ∧ parse_args ["--output=" ++ x, p] = Outcome.ok ⟨NVal.str p, NVal.str x⟩ := by
  have hpne := ne_dd_of_pos hp
  have hmk : String.mk x.data = x := rfl
  have heqne : ("--output=" ++ x) ≠ "--" := by
    intro h
    have h2 := congrArg String.length h
    rw [String.length_append] at h2
    rw [show ("--output=" : String).length = 9 from rfl,
      show ("--" : String).length = 2 from rfl] at h2
    omega
  have htp : toPTok ("--output=" ++ x) = some (PTok.O Act.output false (some x)) :=
    toPTok_opt (tokClass_outputEq x)
  constructor <;>
    simp [parse_args, patternOf, hpne, heqne, toPTok_pos hp, htp,
      run, chainCore, chainSome, execQ, hmk, storedVal_single hpne, storedVal_single hx]

/-- C9 witness: the amended theorem applied at the concrete input
`["foo.c", "--output=out.c"]`. -/
theorem C9_witness :
    parse_args ["foo.c", "--output=" ++ "out.c"]
      = Outcome.ok ⟨NVal.str "foo.c", NVal.str "out.c"⟩ :=
  (C9_output_equals_form_amended "foo.c" "out.c" (by decide) (by decide)).1

/-- C10 counterexample: the claim quantifies over every invocation with
two or more positional tokens, but `["x", "y", "-h"]` supplies the two
positionals `x` and `y` yet exits 0 through the help action instead of
failing with a non-zero usage error. -/
theorem C10_counterexample :
    tokClass "x" = TokClass.pos ∧ tokClass "y" = TokClass.pos
    ∧ parse_args ["x", "y", "-h"] = Outcome.helpExit
    ∧ processExit ["x", "y", "-h"] = 0 := by decide

/-- C10 amended: for every invocation all of whose tokens are plain
positionals, if it supplies two or more of them the parse fails with a
usage error (the extra tokens are reported as unrecognized, not silently
ignored) and the process exits with status 2. -/
theorem C10_extra_positionals_amended (args : List String)
    (hall : ∀ t ∈ args, tokClass t = TokClass.pos) (hlen : 2 ≤ args.length) :
    parse_args args = Outcome.usageError ∧ processExit args = 2 := by
  have hmain : parse_args args = Outcome.usageError := by
    cases args with
    | nil => simp at hlen
    | cons p rest =>
      cases rest with
      | nil => simp at hlen
      | cons q rest2 =>
        have hq : ∀ t ∈ rest2, tokClass t = TokClass.pos :=
          fun t htm => hall t (by simp [htm])
        have hrun := run_allA rest2 (storedVal [p]) NVal.null [q] (Or.inl (by simp))
        simp [parse_args, patternOf_allPos hall, run, hrun]
  exact ⟨hmain, by simp [processExit, hmain, exitCode]⟩

/-- C10 witness: the amended theorem applied at the concrete input
`["x", "y"]`. -/
theorem C10_witness : parse_args ["x", "y"] = Outcome.usageError ∧ processExit ["x", "y"] = 2 :=
  C10_extra_positionals_amended ["x", "y"] (by decide) (by decide)

end ChangeMe
